import Mathlib

/-!
Verification of the MCTS engine in `AI/ai_MCTS.py` (repository byfarm/chess).

The Python module defines a `Game_Node` class (one tree node per game state),
a `back_propagate` function walking parent references, and an `MCTS` driver
loop.  The game engine, the board encoder (`ai.to_bits`) and the two neural
networks (`VALUE_NETWORK`, `POLICY_NETWORK`) are external collaborators of
this module; they are modelled as parameters (`Game`, `Ctx`) below.

Real numbers produced by the networks and by `math.sqrt` / `math.log` are
modelled by the rationals `ℚ`; the transcendental functions themselves are
abstract parameters of the context, so every theorem holds for an arbitrary
interpretation of them.  Python exceptions are modelled with `Except`.
-/

namespace MctsSpec

/-- Python exception outcomes that the MCTS module can produce.
`mathDomainError` models `ValueError: math domain error` from `math.log(0)`;
`indexError` models an out-of-range index / negative `tf.zeros` length;
`typeError` models `None + tensor`; `fuelExhausted` is a modelling artifact:
the `while` loop of the driver is run on explicit fuel. -/
inductive MErr : Type where
  | mathDomainError : MErr
  | indexError : MErr
  | typeError : MErr
  | fuelExhausted : MErr
deriving DecidableEq, Repr

instance {ε α : Type} [DecidableEq ε] [DecidableEq α] : DecidableEq (Except ε α) := fun
  | .ok a, .ok b =>
    if h : a = b then .isTrue (by rw [h]) else .isFalse (by simp [h])
  | .ok _, .error _ => .isFalse (by simp)
  | .error _, .ok _ => .isFalse (by simp)
  | .error e, .error f =>
    if h : e = f then .isTrue (by rw [h]) else .isFalse (by simp [h])

/-- Modelled from the spec: the external GameState capability set (spec §6);
the game engine of the repository is not part of the MCTS source file.
`succs` pairs each legal move with the state reached by playing it
(`applyMove` on a deep copy); `move_turn` is the mover identity;
`stalemate` and `white_win` hold the values of the engine's terminality
flags after `check_for_checkmate()` and `look_for_draws()` have run
(`resolveTerminalStatus` in the spec); `move_counter` counts moves played. -/
inductive Game (Move : Type) : Type where
  | mk (succs : List (Move × Game Move)) (move_turn : String) (stalemate : Bool)
      (white_win : Option Bool) (move_counter : ℕ)

namespace Game

variable {Move : Type}

def succs : Game Move → List (Move × Game Move)
  | .mk s _ _ _ _ => s

def move_turn : Game Move → String
  | .mk _ t _ _ _ => t

def stalemate : Game Move → Bool
  | .mk _ _ st _ _ => st

def white_win : Game Move → Option Bool
  | .mk _ _ _ w _ => w

def move_counter : Game Move → ℕ
  | .mk _ _ _ _ c => c

/-- Projection `game.legal_moves` of the external engine: the ordered legal-move list. -/
def legal_moves (g : Game Move) : List Move := g.succs.map Prod.fst

/-- Operation `game.play_machine_move(move)` on a deep copy: the successor state for a
legal move (for a move that is not legal the external behavior is not
exercised by the MCTS module; the model returns the state unchanged). -/
def play [DecidableEq Move] (g : Game Move) (m : Move) : Game Move :=
  match g.succs.find? (fun p => decide (p.1 = m)) with
  | some p => p.2
  | none => g

instance : Inhabited (Game Move) := ⟨.mk [] "" false none 0⟩

end Game

/-- The external collaborators of the MCTS module: the encoder `ai.to_bits`,
the two networks, and the math library's `sqrt` and `log` (abstract on ℚ).
`policy_network bb` is the raw policy output row `POLICY_NETWORK(bb)[0]`. -/
structure Ctx (Move BB : Type) where
  to_bits : Game Move → BB
  value_network : BB → ℚ
  policy_network : BB → List ℚ
  sqrt : ℚ → ℚ
  log : ℚ → ℚ

/-- One node of the search tree (`Game_Node.__init__` attributes).  The
Python object's `parent_node` back-reference is represented structurally:
the tree operations below address a node by its path of child indices from
the root, and callers pass the parent's statistics where the source
dereferences `parent_node`.  The write-only `visited_boards` log, the
`__repr__` method and the unused `random_game_simulation` method are
omitted. -/
inductive Node (Move BB : Type) : Type where
  | mk (move : Option Move) (game : Game Move) (bitboard : BB)
      (value_evaluation : ℚ) (policy_vector_legal_moves : Option (List ℚ))
      (policy_vector : Option (List ℚ)) (number_of_visits : ℕ) (wins : ℕ)
      (terminal_game_state : Bool) (child_nodes : List (Node Move BB))

namespace Node

variable {Move BB : Type}

def move : Node Move BB → Option Move
  | .mk m _ _ _ _ _ _ _ _ _ => m

def game : Node Move BB → Game Move
  | .mk _ g _ _ _ _ _ _ _ _ => g

def bitboard : Node Move BB → BB
  | .mk _ _ b _ _ _ _ _ _ _ => b

def value_evaluation : Node Move BB → ℚ
  | .mk _ _ _ v _ _ _ _ _ _ => v

def policy_vector_legal_moves : Node Move BB → Option (List ℚ)
  | .mk _ _ _ _ pl _ _ _ _ _ => pl

def policy_vector : Node Move BB → Option (List ℚ)
  | .mk _ _ _ _ _ pv _ _ _ _ => pv

def number_of_visits : Node Move BB → ℕ
  | .mk _ _ _ _ _ _ n _ _ _ => n

def wins : Node Move BB → ℕ
  | .mk _ _ _ _ _ _ _ w _ _ => w

def terminal_game_state : Node Move BB → Bool
  | .mk _ _ _ _ _ _ _ _ t _ => t

def child_nodes : Node Move BB → List (Node Move BB)
  | .mk _ _ _ _ _ _ _ _ _ c => c

instance [Inhabited BB] : Inhabited (Node Move BB) :=
  ⟨.mk none default default 0 none none 0 0 true []⟩

end Node

variable {Move BB : Type}

/-- Constructor `Game_Node.__init__` (source lines 14-51).  `float(game.white_win)` is
`1` for a white win and `0` for a black win; the value network is queried
only when the resolved `stalemate` flag is false.  `terminal_game_state`
is `False if len(self.game.legal_moves) > 0 else True`. -/
def Game_Node.init (ctx : Ctx Move BB) (game : Game Move) (move : Option Move) :
    Node Move BB :=
  let bitboard := ctx.to_bits game
  let value_evaluation :=
    if game.stalemate then
      match game.white_win with
      | some w => if w then 1 else 0
      | none => 1 / 2
    else ctx.value_network bitboard
  .mk move game bitboard value_evaluation none none 0 0
    (if 0 < game.legal_moves.length then false else true) []

/-- Method `Game_Node.make_a_move` (lines 56-59): the `for` loop returns the first
child whose `move` equals the argument; falling off the loop returns `None`. -/
def make_a_move [DecidableEq Move] (n : Node Move BB) (move : Move) :
    Option (Node Move BB) :=
  n.child_nodes.find? (fun c => decide (c.move = some move))

/-- Method `Game_Node.get_ucb1_score` (lines 113-126) for a node with win count
`w` and visit count `n`, whose parent has visit count `N`
(`self.parent_node.number_of_visits`).  The Python `try` body evaluates
`self.wins / self.number_of_visits` first, so `n = 0` raises
`ZeroDivisionError` before `math.log` runs; the handler then returns the
fallback.  When `n ≠ 0` but `N = 0`, `math.log(0)` raises an uncaught
`ValueError` (`math domain error`). -/
def get_ucb1_score (ctx : Ctx Move BB) (w n N : ℕ) (exploration_constant : ℚ) :
    Except MErr ℚ :=
  if n = 0 then
    if 0 < N then .ok (exploration_constant * ctx.sqrt (ctx.log N))
    else .ok 0
  else if N = 0 then .error .mathDomainError
  else .ok ((w : ℚ) / n + exploration_constant * ctx.sqrt (ctx.log N / n))

/-- Sequential effectful map: models a Python `for` loop that appends
`f a` for each element and propagates the first exception. -/
def exceptMap {α β ε : Type} (f : α → Except ε β) : List α → Except ε (List β)
  | [] => .ok []
  | a :: l =>
    match f a with
    | .error e => .error e
    | .ok b =>
      match exceptMap f l with
      | .error e => .error e
      | .ok bs => .ok (b :: bs)

/-- Method `Game_Node.find_child_node_information` (lines 83-90): collect each
child's `value_evaluation` and UCB1 score (computed against this node's
own visit count, since this node is the children's parent). -/
def find_child_node_information (ctx : Ctx Move BB) (n : Node Move BB) :
    Except MErr (List ℚ × List ℚ) :=
  match exceptMap
      (fun c => get_ucb1_score ctx c.wins c.number_of_visits
        n.number_of_visits (ctx.sqrt 2)) n.child_nodes with
  | .error e => .error e
  | .ok ucb1_scores => .ok (n.child_nodes.map (fun c => c.value_evaluation), ucb1_scores)

/-- Method `Game_Node.init_all_children` (lines 92-98): for each legal move in
order, deep-copy the game, play the move, construct a child node and
append it to `child_nodes`. -/
def init_all_children [DecidableEq Move] (ctx : Ctx Move BB) :
    Node Move BB → Node Move BB
  | .mk mv g bb ve pvl pv visits wins term ch =>
    .mk mv g bb ve pvl pv visits wins term
      (ch ++ g.legal_moves.map (fun m => Game_Node.init ctx (g.play m) (some m)))

/-- Elementwise tensor addition (TensorFlow `+` on two equal-shape rank-1
tensors; every call site of the source adds tensors of equal length). -/
def addVec (a b : List ℚ) : List ℚ := List.zipWith (fun x y => x + y) a b

/-- Lines 75-76: the raw policy output normalized by the sum of ALL of its
entries (`tf.reduce_sum`, including entries beyond the legal-move count). -/
def normalized_policy (ctx : Ctx Move BB) (n : Node Move BB) : List ℚ :=
  let policy_network_output := ctx.policy_network n.bitboard
  policy_network_output.map (fun x => x / policy_network_output.sum)

/-- Line 80: the blended legal-move scores
`evaluations + ucb1_scores + policy_network_probabilities[0, :k]`, given
the pair `info = (evaluations, ucb1_scores)`. -/
def blend (ctx : Ctx Move BB) (n : Node Move BB) (info : List ℚ × List ℚ) : List ℚ :=
  addVec (addVec info.1 info.2)
    ((normalized_policy ctx n).take n.game.legal_moves.length)

/-- Line 81's mutation: store `policy_vector_legal_moves := legal` and
`policy_vector := vec` on the node, leaving every other attribute alone. -/
def set_policy_fields (n : Node Move BB) (legal vec : List ℚ) : Node Move BB :=
  match n with
  | .mk mv g bb ve _ _ visits wins term ch =>
    .mk mv g bb ve (some legal) (some vec) visits wins term ch

/-- Lines 69-71: `init_all_children` runs only when `child_nodes` is empty
(the source's sole guard against re-expansion). -/
def expand_if_empty [DecidableEq Move] (ctx : Ctx Move BB) (n : Node Move BB) :
    Node Move BB :=
  if n.child_nodes.length = 0 then init_all_children ctx n else n

/-- Method `Game_Node.get_policy_vector` (lines 61-81).  Children are created only
when `child_nodes` is empty; the stored `policy_vector` is the blended
legal-score vector right-padded with `tf.zeros(218 - k)` (which raises if
`k > 218`). -/
def get_policy_vector [DecidableEq Move] (ctx : Ctx Move BB) (n : Node Move BB) :
    Except MErr (Node Move BB) :=
  let n := expand_if_empty ctx n
  match find_child_node_information ctx n with
  | .error e => .error e
  | .ok info =>
    let legal := blend ctx n info
    if n.game.legal_moves.length ≤ 218 then
      .ok (set_policy_fields n legal
        (legal ++ List.replicate (218 - n.game.legal_moves.length) 0))
    else .error .indexError

/-- TensorFlow `tf.argmax`: index of the first occurrence of the maximum.  (On an
empty tensor TensorFlow raises; the source's `select_child` would then
fail, which the driver model reports as `indexError`.) -/
def argmaxAux (best_i : ℕ) (best : ℚ) (i : ℕ) : List ℚ → ℕ
  | [] => best_i
  | x :: xs => if best < x then argmaxAux i x (i + 1) xs else argmaxAux best_i best (i + 1) xs

def argmax : List ℚ → ℕ
  | [] => 0
  | x :: xs => argmaxAux 0 x 1 xs

/-- Method `Game_Node.select_child` (lines 128-136): the child at the argmax of
the given score vector; `none` models the `IndexError` when the index is
out of range. -/
def select_child (n : Node Move BB) (move_probabilities : List ℚ) :
    Option (Node Move BB) :=
  n.child_nodes.get? (argmax move_probabilities)

/-- Lines 149-154: the win credit added to a node with mover identity
`turn` when the result `result` is backpropagated for a leaf with mover
identity `leaf_move_turn`: `1` iff the identities agree and
`result > 0.75`, or disagree and `result < 0.25`. -/
def win_increment (result : ℚ) (leaf_move_turn turn : String) : ℕ :=
  if turn = leaf_move_turn then
    (if 3 / 4 < result then 1 else 0)
  else
    (if result < 1 / 4 then 1 else 0)

/-- One step of the `back_propagate` loop body (lines 147-154) on a single
node: increment `number_of_visits` and add the win credit. -/
def bp_update (result : ℚ) (leaf_move_turn : String) : Node Move BB → Node Move BB
  | .mk mv g bb ve pvl pv visits wins term ch =>
    .mk mv g bb ve pvl pv (visits + 1)
      (wins + win_increment result leaf_move_turn g.move_turn) term ch

/-- Function `back_propagate` (lines 139-155).  The `while node:` loop visits the
leaf, then each ancestor in turn, and stops after the root (whose
`parent_node` is `False`); the parent chain is passed explicitly as the
list `[leaf, parent, ..., root]`, and every node on it is updated once. -/
def back_propagate (chain : List (Node Move BB)) (result : ℚ)
    (leaf_move_turn : String) : List (Node Move BB) :=
  chain.map (bp_update result leaf_move_turn)

/-- Replace the element at index `i` (identity when out of range). -/
def modifyAt {α : Type} : List α → ℕ → (α → α) → List α
  | [], _, _ => []
  | x :: xs, 0, f => f x :: xs
  | x :: xs, i + 1, f => x :: modifyAt xs i f

/-- The node reached from `n` by following the path of child indices `p`
(the in-place object graph of the source is addressed by such paths). -/
def Node.getPath [Inhabited BB] : Node Move BB → List ℕ → Node Move BB
  | n, [] => n
  | n, i :: p => (n.child_nodes.getD i default).getPath p

/-- Replace the node at path `p` (models an in-place mutation of that
object in the Python tree). -/
def Node.setPath : Node Move BB → List ℕ → Node Move BB → Node Move BB
  | _, [], m => m
  | .mk mv g bb ve pvl pv visits wins term ch, i :: p, m =>
    .mk mv g bb ve pvl pv visits wins term (modifyAt ch i (fun c => c.setPath p m))

/-- Every index of the path is in range. -/
def Node.validPath [Inhabited BB] : List ℕ → Node Move BB → Bool
  | [], _ => true
  | i :: p, n =>
    decide (i < n.child_nodes.length) && validPath p (n.child_nodes.getD i default)

/-- Function `back_propagate` as it acts inside the driver: the leaf at path `p`
and all of its ancestors up to the root (every prefix of `p`) are updated
by one `bp_update` each. -/
def back_propagate_path (result : ℚ) (leaf_move_turn : String) :
    Node Move BB → List ℕ → Node Move BB
  | n, [] => bp_update result leaf_move_turn n
  | .mk mv g bb ve pvl pv visits wins term ch, i :: p =>
    .mk mv g bb ve pvl pv (visits + 1)
      (wins + win_increment result leaf_move_turn g.move_turn) term
      (modifyAt ch i (fun c => back_propagate_path result leaf_move_turn c p))

/-- The `while selected_node.number_of_visits > 0:` loop of `MCTS`
(lines 189-196), operating on the tree `t` with the currently selected
node at path `p`.  One fuel unit is spent per loop-condition check; the
source loop's termination is otherwise not modelled. -/
def descend [DecidableEq Move] [Inhabited BB] (ctx : Ctx Move BB) :
    ℕ → Node Move BB → List ℕ → Except MErr (Node Move BB × List ℕ)
  | 0, _, _ => .error .fuelExhausted
  | fuel + 1, t, p =>
    let n := t.getPath p
    if n.number_of_visits = 0 then .ok (t, p)
    else
      match n.policy_vector_legal_moves with
      | some v =>
        if n.terminal_game_state then .ok (t, p)
        else
          let i := argmax v
          if i < n.child_nodes.length then descend ctx fuel t (p ++ [i])
          else .error .indexError
      | none =>
        match get_policy_vector ctx n with
        | .error e => .error e
        | .ok n' => descend ctx fuel (t.setPath p n') p

/-- One iteration of the driver loop (lines 180-202): add this iteration's
Dirichlet noise draw `noise` to the root's blended legal scores, select a
child of the root by argmax, run the descent loop from it, then
backpropagate the reached node's `value_evaluation` with its mover
identity.  (`None + noise` would raise a `TypeError`; selecting an
out-of-range child raises.) -/
def mcts_iter [DecidableEq Move] [Inhabited BB] (ctx : Ctx Move BB) (fuel : ℕ)
    (t : Node Move BB) (noise : List ℚ) : Except MErr (Node Move BB) :=
  match t.policy_vector_legal_moves with
  | none => .error .typeError
  | some rootScores =>
    let noise_probabilities := addVec rootScores noise
    let i := argmax noise_probabilities
    if i < t.child_nodes.length then
      match descend ctx fuel t [i] with
      | .error e => .error e
      | .ok (t', p) =>
        let selected := t'.getPath p
        .ok (back_propagate_path selected.value_evaluation
          selected.game.move_turn t' p)
    else .error .indexError

/-- The `for _ in range(iterations)` loop of `MCTS`; the external Dirichlet
noise draws are an explicit input, one vector per iteration. -/
def mcts_loop [DecidableEq Move] [Inhabited BB] (ctx : Ctx Move BB) (fuel : ℕ) :
    Node Move BB → List (List ℚ) → Except MErr (Node Move BB)
  | t, [] => .ok t
  | t, noise :: rest =>
    match mcts_iter ctx fuel t noise with
    | .error e => .error e
    | .ok t' => mcts_loop ctx fuel t' rest

/-- Driver `MCTS` (lines 158-204) started from an already-built root node (the
`starting_node` branch clears the parent reference, which is implicit
here): return a terminal root immediately, otherwise compute the root's
policy vector and run the iteration loop. -/
def MCTS [DecidableEq Move] [Inhabited BB] (ctx : Ctx Move BB) (fuel : ℕ)
    (root : Node Move BB) (noises : List (List ℚ)) : Except MErr (Node Move BB) :=
  if root.terminal_game_state then .ok root
  else
    match get_policy_vector ctx root with
    | .error e => .error e
    | .ok root' => mcts_loop ctx fuel root' noises

/-- Driver `MCTS` started from a fresh game (the `starting_node is None` branch):
the root is constructed by `Game_Node(game)`. -/
def MCTS_of_game [DecidableEq Move] [Inhabited BB] (ctx : Ctx Move BB) (fuel : ℕ)
    (game : Game Move) (noises : List (List ℚ)) : Except MErr (Node Move BB) :=
  MCTS ctx fuel (Game_Node.init ctx game none) noises

/-! ### Projection lemmas -/

section Projections

variable {mv : Option Move} {g : Game Move} {bb : BB} {ve : ℚ}
  {pvl pv : Option (List ℚ)} {visits wins : ℕ} {term : Bool}
  {ch : List (Node Move BB)}

@[simp] theorem Node.move_mk :
    (Node.mk mv g bb ve pvl pv visits wins term ch).move = mv := rfl

@[simp] theorem Node.game_mk :
    (Node.mk mv g bb ve pvl pv visits wins term ch).game = g := rfl

@[simp] theorem Node.bitboard_mk :
    (Node.mk mv g bb ve pvl pv visits wins term ch).bitboard = bb := rfl

@[simp] theorem Node.value_evaluation_mk :
    (Node.mk mv g bb ve pvl pv visits wins term ch).value_evaluation = ve := rfl

@[simp] theorem Node.policy_vector_legal_moves_mk :
    (Node.mk mv g bb ve pvl pv visits wins term ch).policy_vector_legal_moves = pvl := rfl

@[simp] theorem Node.policy_vector_mk :
    (Node.mk mv g bb ve pvl pv visits wins term ch).policy_vector = pv := rfl

@[simp] theorem Node.number_of_visits_mk :
    (Node.mk mv g bb ve pvl pv visits wins term ch).number_of_visits = visits := rfl

@[simp] theorem Node.wins_mk :
    (Node.mk mv g bb ve pvl pv visits wins term ch).wins = wins := rfl

@[simp] theorem Node.terminal_game_state_mk :
    (Node.mk mv g bb ve pvl pv visits wins term ch).terminal_game_state = term := rfl

@[simp] theorem Node.child_nodes_mk :
    (Node.mk mv g bb ve pvl pv visits wins term ch).child_nodes = ch := rfl

end Projections

section GameProjections

variable {s : List (Move × Game Move)} {t : String} {st : Bool}
  {w : Option Bool} {c : ℕ}

@[simp] theorem Game.succs_mk : (Game.mk s t st w c).succs = s := rfl

@[simp] theorem Game.move_turn_mk : (Game.mk s t st w c).move_turn = t := rfl

@[simp] theorem Game.stalemate_mk : (Game.mk s t st w c).stalemate = st := rfl

@[simp] theorem Game.white_win_mk : (Game.mk s t st w c).white_win = w := rfl

@[simp] theorem Game.move_counter_mk : (Game.mk s t st w c).move_counter = c := rfl

@[simp] theorem Game.legal_moves_mk :
    (Game.mk s t st w c).legal_moves = s.map Prod.fst := rfl

end GameProjections

/-! ### Lemmas about the node operations -/

section OpLemmas

variable {ctx : Ctx Move BB} {n : Node Move BB}

@[simp] theorem init_child_nodes {g : Game Move} {mv : Option Move} :
    (Game_Node.init ctx g mv).child_nodes = [] := rfl

@[simp] theorem init_number_of_visits {g : Game Move} {mv : Option Move} :
    (Game_Node.init ctx g mv).number_of_visits = 0 := rfl

@[simp] theorem init_wins {g : Game Move} {mv : Option Move} :
    (Game_Node.init ctx g mv).wins = 0 := rfl

@[simp] theorem init_move {g : Game Move} {mv : Option Move} :
    (Game_Node.init ctx g mv).move = mv := rfl

@[simp] theorem init_game {g : Game Move} {mv : Option Move} :
    (Game_Node.init ctx g mv).game = g := rfl

@[simp] theorem init_bitboard {g : Game Move} {mv : Option Move} :
    (Game_Node.init ctx g mv).bitboard = ctx.to_bits g := rfl

@[simp] theorem init_policy_vector_legal_moves {g : Game Move} {mv : Option Move} :
    (Game_Node.init ctx g mv).policy_vector_legal_moves = none := rfl

@[simp] theorem init_policy_vector {g : Game Move} {mv : Option Move} :
    (Game_Node.init ctx g mv).policy_vector = none := rfl

theorem init_value_evaluation {g : Game Move} {mv : Option Move} :
    (Game_Node.init ctx g mv).value_evaluation =
      (if g.stalemate then
        match g.white_win with
        | some w => if w then 1 else 0
        | none => 1 / 2
      else ctx.value_network (ctx.to_bits g)) := rfl

theorem init_terminal_game_state {g : Game Move} {mv : Option Move} :
    (Game_Node.init ctx g mv).terminal_game_state =
      (if 0 < g.legal_moves.length then false else true) := rfl

@[simp] theorem init_all_children_move [DecidableEq Move] :
    (init_all_children ctx n).move = n.move := by cases n; rfl

@[simp] theorem init_all_children_game [DecidableEq Move] :
    (init_all_children ctx n).game = n.game := by cases n; rfl

@[simp] theorem init_all_children_bitboard [DecidableEq Move] :
    (init_all_children ctx n).bitboard = n.bitboard := by cases n; rfl

@[simp] theorem init_all_children_value_evaluation [DecidableEq Move] :
    (init_all_children ctx n).value_evaluation = n.value_evaluation := by cases n; rfl

@[simp] theorem init_all_children_policy_vector_legal_moves [DecidableEq Move] :
    (init_all_children ctx n).policy_vector_legal_moves =
      n.policy_vector_legal_moves := by cases n; rfl

@[simp] theorem init_all_children_policy_vector [DecidableEq Move] :
    (init_all_children ctx n).policy_vector = n.policy_vector := by cases n; rfl

@[simp] theorem init_all_children_number_of_visits [DecidableEq Move] :
    (init_all_children ctx n).number_of_visits = n.number_of_visits := by cases n; rfl

@[simp] theorem init_all_children_wins [DecidableEq Move] :
    (init_all_children ctx n).wins = n.wins := by cases n; rfl

@[simp] theorem init_all_children_terminal_game_state [DecidableEq Move] :
    (init_all_children ctx n).terminal_game_state = n.terminal_game_state := by
  cases n; rfl

@[simp] theorem init_all_children_child_nodes [DecidableEq Move] :
    (init_all_children ctx n).child_nodes =
      n.child_nodes ++
        n.game.legal_moves.map (fun m => Game_Node.init ctx (n.game.play m) (some m)) := by
  cases n; rfl

@[simp] theorem set_policy_fields_move {legal vec : List ℚ} :
    (set_policy_fields n legal vec).move = n.move := by cases n; rfl

@[simp] theorem set_policy_fields_game {legal vec : List ℚ} :
    (set_policy_fields n legal vec).game = n.game := by cases n; rfl

@[simp] theorem set_policy_fields_bitboard {legal vec : List ℚ} :
    (set_policy_fields n legal vec).bitboard = n.bitboard := by cases n; rfl

@[simp] theorem set_policy_fields_value_evaluation {legal vec : List ℚ} :
    (set_policy_fields n legal vec).value_evaluation = n.value_evaluation := by
  cases n; rfl

@[simp] theorem set_policy_fields_policy_vector_legal_moves {legal vec : List ℚ} :
    (set_policy_fields n legal vec).policy_vector_legal_moves = some legal := by
  cases n; rfl

@[simp] theorem set_policy_fields_policy_vector {legal vec : List ℚ} :
    (set_policy_fields n legal vec).policy_vector = some vec := by cases n; rfl

@[simp] theorem set_policy_fields_number_of_visits {legal vec : List ℚ} :
    (set_policy_fields n legal vec).number_of_visits = n.number_of_visits := by
  cases n; rfl

@[simp] theorem set_policy_fields_wins {legal vec : List ℚ} :
    (set_policy_fields n legal vec).wins = n.wins := by cases n; rfl

@[simp] theorem set_policy_fields_terminal_game_state {legal vec : List ℚ} :
    (set_policy_fields n legal vec).terminal_game_state = n.terminal_game_state := by
  cases n; rfl

@[simp] theorem set_policy_fields_child_nodes {legal vec : List ℚ} :
    (set_policy_fields n legal vec).child_nodes = n.child_nodes := by cases n; rfl

@[simp] theorem bp_update_move {r : ℚ} {s : String} :
    (bp_update r s n).move = n.move := by cases n; rfl

@[simp] theorem bp_update_game {r : ℚ} {s : String} :
    (bp_update r s n).game = n.game := by cases n; rfl

@[simp] theorem bp_update_value_evaluation {r : ℚ} {s : String} :
    (bp_update r s n).value_evaluation = n.value_evaluation := by cases n; rfl

@[simp] theorem bp_update_policy_vector_legal_moves {r : ℚ} {s : String} :
    (bp_update r s n).policy_vector_legal_moves = n.policy_vector_legal_moves := by
  cases n; rfl

@[simp] theorem bp_update_number_of_visits {r : ℚ} {s : String} :
    (bp_update r s n).number_of_visits = n.number_of_visits + 1 := by cases n; rfl

@[simp] theorem bp_update_wins {r : ℚ} {s : String} :
    (bp_update r s n).wins = n.wins + win_increment r s n.game.move_turn := by
  cases n; rfl

@[simp] theorem bp_update_terminal_game_state {r : ℚ} {s : String} :
    (bp_update r s n).terminal_game_state = n.terminal_game_state := by cases n; rfl

@[simp] theorem bp_update_child_nodes {r : ℚ} {s : String} :
    (bp_update r s n).child_nodes = n.child_nodes := by cases n; rfl

theorem win_increment_le_one {r : ℚ} {s t : String} : win_increment r s t ≤ 1 := by
  unfold win_increment
  split <;> split <;> simp

end OpLemmas

/-! ### List helper lemmas -/

section ListLemmas

variable {α β ε : Type}

theorem getD_eq_getElem_of_lt (l : List α) (d : α) {i : ℕ} (h : i < l.length) :
    l.getD i d = l[i] := by
  simp [List.getD_eq_getElem?_getD, List.getElem?_eq_getElem h]

theorem exceptMap_ok_length {f : α → Except ε β} :
    ∀ {l : List α} {bs : List β}, exceptMap f l = .ok bs → bs.length = l.length := by
  intro l
  induction l with
  | nil => intro bs h; simp [exceptMap] at h; simp [← h]
  | cons a l ih =>
    intro bs h
    simp only [exceptMap] at h
    cases hfa : f a with
    | error e => rw [hfa] at h; exact absurd h (by simp)
    | ok b =>
      rw [hfa] at h
      cases hrest : exceptMap f l with
      | error e => rw [hrest] at h; exact absurd h (by simp)
      | ok bs' =>
        rw [hrest] at h
        cases h
        simp [ih hrest]

theorem exceptMap_ok_getD {f : α → Except ε β} (da : α) (db : β) :
    ∀ {l : List α} {bs : List β}, exceptMap f l = .ok bs →
      ∀ i, i < l.length → f (l.getD i da) = .ok (bs.getD i db) := by
  intro l
  induction l with
  | nil => intro bs _ i hi; simp at hi
  | cons a l ih =>
    intro bs h i hi
    simp only [exceptMap] at h
    cases hfa : f a with
    | error e => rw [hfa] at h; exact absurd h (by simp)
    | ok b =>
      rw [hfa] at h
      cases hrest : exceptMap f l with
      | error e => rw [hrest] at h; exact absurd h (by simp)
      | ok bs' =>
        rw [hrest] at h
        cases h
        cases i with
        | zero => simpa using hfa
        | succ j => simpa using ih hrest j (by simpa using hi)

theorem modifyAt_length (l : List α) (f : α → α) :
    ∀ i, (modifyAt l i f).length = l.length := by
  induction l with
  | nil => intro i; rfl
  | cons x xs ih =>
    intro i
    cases i with
    | zero => simp [modifyAt]
    | succ j => simp [modifyAt, ih j]

theorem modifyAt_getD_self {l : List α} {i : ℕ} (h : i < l.length) (f : α → α) (d : α) :
    (modifyAt l i f).getD i d = f (l.getD i d) := by
  induction l generalizing i with
  | nil => simp at h
  | cons x xs ih =>
    cases i with
    | zero => simp [modifyAt]
    | succ j => simpa [modifyAt] using ih (by simpa using h)

theorem mem_modifyAt {l : List α} {i : ℕ} {f : α → α} {x : α}
    (h : x ∈ modifyAt l i f) : x ∈ l ∨ ∃ y ∈ l, x = f y := by
  induction l generalizing i with
  | nil => simp [modifyAt] at h
  | cons a as ih =>
    cases i with
    | zero =>
      simp only [modifyAt] at h
      rcases List.mem_cons.mp h with h1 | h1
      · exact Or.inr ⟨a, List.mem_cons_self a as, h1⟩
      · exact Or.inl (List.mem_cons_of_mem a h1)
    | succ j =>
      simp only [modifyAt] at h
      rcases List.mem_cons.mp h with h1 | h1
      · exact Or.inl (h1 ▸ List.mem_cons_self a as)
      · rcases ih h1 with h2 | ⟨y, hy, h3⟩
        · exact Or.inl (List.mem_cons_of_mem a h2)
        · exact Or.inr ⟨y, List.mem_cons_of_mem a hy, h3⟩

theorem addVec_length (a b : List ℚ) : (addVec a b).length = min a.length b.length := by
  simp [addVec]

theorem addVec_getD {a b : List ℚ} {i : ℕ} (ha : i < a.length) (hb : i < b.length) :
    (addVec a b).getD i 0 = a.getD i 0 + b.getD i 0 := by
  have hl : i < (addVec a b).length := by
    simp [addVec_length]; exact ⟨ha, hb⟩
  rw [getD_eq_getElem_of_lt _ _ hl, getD_eq_getElem_of_lt _ _ ha,
    getD_eq_getElem_of_lt _ _ hb]
  simp [addVec]

theorem argmaxAux_lt (xs : List ℚ) :
    ∀ best_i best i, best_i < i → argmaxAux best_i best i xs < i + xs.length := by
  induction xs with
  | nil => intro best_i best i h; simpa [argmaxAux] using h
  | cons x xs ih =>
    intro best_i best i h
    simp only [argmaxAux]
    split
    · have := ih i x (i + 1) (Nat.lt_succ_self i)
      simpa [Nat.add_comm, Nat.add_assoc, Nat.add_left_comm] using this
    · have := ih best_i best (i + 1) (Nat.lt_succ_of_lt h)
      simpa [Nat.add_comm, Nat.add_assoc, Nat.add_left_comm] using this

theorem argmax_lt_length {l : List ℚ} (h : l ≠ []) : argmax l < l.length := by
  cases l with
  | nil => exact absurd rfl h
  | cons x xs =>
    simpa [argmax, Nat.add_comm] using argmaxAux_lt xs 0 x 1 Nat.one_pos

end ListLemmas

/-! ### Characterization of a successful `get_policy_vector` call -/

section GpvLemmas

variable [DecidableEq Move] {ctx : Ctx Move BB} {n n' : Node Move BB}

theorem expand_if_empty_of_empty (h : n.child_nodes = []) :
    expand_if_empty ctx n = init_all_children ctx n := by
  simp [expand_if_empty, h]

theorem expand_if_empty_of_ne (h : n.child_nodes ≠ []) :
    expand_if_empty ctx n = n := by
  simp [expand_if_empty, List.length_eq_zero, h]

theorem get_policy_vector_ok_elim (hok : get_policy_vector ctx n = .ok n') :
    ∃ info, find_child_node_information ctx (expand_if_empty ctx n) = .ok info ∧
      (expand_if_empty ctx n).game.legal_moves.length ≤ 218 ∧
      n' = set_policy_fields (expand_if_empty ctx n)
            (blend ctx (expand_if_empty ctx n) info)
            (blend ctx (expand_if_empty ctx n) info ++
              List.replicate (218 - (expand_if_empty ctx n).game.legal_moves.length) 0) := by
  simp only [get_policy_vector] at hok
  cases hfind : find_child_node_information ctx (expand_if_empty ctx n) with
  | error e => rw [hfind] at hok; exact absurd hok (by simp)
  | ok info =>
    rw [hfind] at hok
    dsimp only at hok
    by_cases hk : (expand_if_empty ctx n).game.legal_moves.length ≤ 218
    · rw [if_pos hk] at hok
      cases hok
      exact ⟨info, rfl, hk, rfl⟩
    · rw [if_neg hk] at hok
      exact absurd hok (by simp)

theorem expand_if_empty_game : (expand_if_empty ctx n).game = n.game := by
  unfold expand_if_empty; split <;> simp

theorem expand_if_empty_bitboard : (expand_if_empty ctx n).bitboard = n.bitboard := by
  unfold expand_if_empty; split <;> simp

theorem expand_if_empty_number_of_visits :
    (expand_if_empty ctx n).number_of_visits = n.number_of_visits := by
  unfold expand_if_empty; split <;> simp

theorem expand_if_empty_wins : (expand_if_empty ctx n).wins = n.wins := by
  unfold expand_if_empty; split <;> simp

theorem expand_if_empty_terminal_game_state :
    (expand_if_empty ctx n).terminal_game_state = n.terminal_game_state := by
  unfold expand_if_empty; split <;> simp

theorem expand_if_empty_value_evaluation :
    (expand_if_empty ctx n).value_evaluation = n.value_evaluation := by
  unfold expand_if_empty; split <;> simp

theorem expand_if_empty_move : (expand_if_empty ctx n).move = n.move := by
  unfold expand_if_empty; split <;> simp

theorem expand_if_empty_child_nodes_of_empty (h : n.child_nodes = []) :
    (expand_if_empty ctx n).child_nodes =
      n.game.legal_moves.map (fun m => Game_Node.init ctx (n.game.play m) (some m)) := by
  rw [expand_if_empty_of_empty h]
  simp [h]

/-- A successful `get_policy_vector` changes only the two policy-vector
attributes and (when `child_nodes` was empty) the children. -/
theorem get_policy_vector_preserves (hok : get_policy_vector ctx n = .ok n') :
    n'.game = n.game ∧ n'.bitboard = n.bitboard ∧
    n'.number_of_visits = n.number_of_visits ∧ n'.wins = n.wins ∧
    n'.terminal_game_state = n.terminal_game_state ∧
    n'.value_evaluation = n.value_evaluation ∧ n'.move = n.move := by
  obtain ⟨info, _, _, hn'⟩ := get_policy_vector_ok_elim hok
  subst hn'
  simp [expand_if_empty_game, expand_if_empty_bitboard,
    expand_if_empty_number_of_visits, expand_if_empty_wins,
    expand_if_empty_terminal_game_state, expand_if_empty_value_evaluation,
    expand_if_empty_move]

theorem get_policy_vector_children_of_empty (h : n.child_nodes = [])
    (hok : get_policy_vector ctx n = .ok n') :
    n'.child_nodes =
      n.game.legal_moves.map (fun m => Game_Node.init ctx (n.game.play m) (some m)) := by
  obtain ⟨info, _, _, hn'⟩ := get_policy_vector_ok_elim hok
  subst hn'
  simp [expand_if_empty_child_nodes_of_empty h]

theorem get_policy_vector_children_of_ne (h : n.child_nodes ≠ [])
    (hok : get_policy_vector ctx n = .ok n') :
    n'.child_nodes = n.child_nodes := by
  obtain ⟨info, _, _, hn'⟩ := get_policy_vector_ok_elim hok
  subst hn'
  simp [expand_if_empty_of_ne h]

theorem get_policy_vector_vectors (hok : get_policy_vector ctx n = .ok n') :
    ∃ L, n'.policy_vector_legal_moves = some L ∧
      n'.policy_vector = some (L ++ List.replicate (218 - n.game.legal_moves.length) 0) := by
  obtain ⟨info, _, _, hn'⟩ := get_policy_vector_ok_elim hok
  subst hn'
  refine ⟨blend ctx (expand_if_empty ctx n) info, by simp, ?_⟩
  simp [expand_if_empty_game]

end GpvLemmas

/-! ### Tree-path lemmas -/

section TreeLemmas

variable [Inhabited BB] {t m : Node Move BB}

theorem getPath_append (t : Node Move BB) (p q : List ℕ) :
    t.getPath (p ++ q) = (t.getPath p).getPath q := by
  induction p generalizing t with
  | nil => rfl
  | cons i p ih => simp [Node.getPath, ih]

theorem getPath_setPath :
    ∀ (p : List ℕ) (t m : Node Move BB), Node.validPath p t = true →
      (t.setPath p m).getPath p = m := by
  intro p
  induction p with
  | nil => intro t m _; cases t; rfl
  | cons i p ih =>
    intro t m h
    simp only [Node.validPath, Bool.and_eq_true, decide_eq_true_eq] at h
    cases t with
    | mk mv g bb ve pvl pv visits wins term ch =>
      simp only [Node.setPath, Node.getPath, Node.child_nodes_mk]
      rw [modifyAt_getD_self (by simpa using h.1)]
      exact ih _ _ h.2

end TreeLemmas

/-! ### The `winCount ≤ visitCount` invariant -/

/-- Every node of a tree satisfies `0 ≤ wins ≤ number_of_visits` (the lower
bound is inherent to ℕ). -/
inductive WfStats : Node Move BB → Prop where
  | mk : ∀ (mv : Option Move) (g : Game Move) (bb : BB) (ve : ℚ)
      (pvl pv : Option (List ℚ)) (visits wins : ℕ) (term : Bool)
      (ch : List (Node Move BB)),
      wins ≤ visits → (∀ c ∈ ch, WfStats c) →
      WfStats (.mk mv g bb ve pvl pv visits wins term ch)

section WfLemmas

variable {ctx : Ctx Move BB} {n t m : Node Move BB}

theorem WfStats.le (h : WfStats n) : n.wins ≤ n.number_of_visits := by
  cases h; simpa

theorem WfStats.child (h : WfStats n) {c : Node Move BB}
    (hc : c ∈ n.child_nodes) : WfStats c := by
  cases h with
  | mk _ _ _ _ _ _ _ _ _ _ _ hch => exact hch _ (by simpa using hc)

theorem WfStats.of_le_of_children (h1 : n.wins ≤ n.number_of_visits)
    (h2 : ∀ c ∈ n.child_nodes, WfStats c) : WfStats n := by
  cases n
  exact .mk _ _ _ _ _ _ _ _ _ _ (by simpa using h1) (by simpa using h2)

theorem wf_default [Inhabited BB] : WfStats (default : Node Move BB) :=
  .mk _ _ _ _ _ _ _ _ _ _ (Nat.le_refl 0) (by simp)

theorem wf_init {g : Game Move} {mv : Option Move} :
    WfStats (Game_Node.init ctx g mv) :=
  WfStats.of_le_of_children (by simp) (by simp)

theorem wf_init_all_children [DecidableEq Move] (h : WfStats n) :
    WfStats (init_all_children ctx n) := by
  refine WfStats.of_le_of_children (by simpa using h.le) ?_
  intro c hc
  rw [init_all_children_child_nodes] at hc
  rcases List.mem_append.mp hc with hc | hc
  · exact h.child hc
  · rcases List.mem_map.mp hc with ⟨mv, _, rfl⟩
    exact wf_init

theorem wf_set_policy_fields {L V : List ℚ} (h : WfStats n) :
    WfStats (set_policy_fields n L V) :=
  WfStats.of_le_of_children (by simpa using h.le)
    (by simpa using fun c hc => h.child hc)

theorem wf_expand_if_empty [DecidableEq Move] (h : WfStats n) :
    WfStats (expand_if_empty ctx n) := by
  unfold expand_if_empty
  split
  · exact wf_init_all_children h
  · exact h

theorem wf_get_policy_vector [DecidableEq Move] {n' : Node Move BB}
    (h : WfStats n) (hok : get_policy_vector ctx n = .ok n') : WfStats n' := by
  obtain ⟨info, _, _, hn'⟩ := get_policy_vector_ok_elim hok
  subst hn'
  exact wf_set_policy_fields (wf_expand_if_empty h)

theorem getD_mem_of_lt {α : Type} {l : List α} {i : ℕ} (h : i < l.length) (d : α) :
    l.getD i d ∈ l := by
  rw [getD_eq_getElem_of_lt l d h]
  exact List.getElem_mem h

theorem wf_getPath [Inhabited BB] (h : WfStats t) :
    ∀ p : List ℕ, WfStats (t.getPath p) := by
  intro p
  induction p generalizing t with
  | nil => exact h
  | cons i p ih =>
    show WfStats ((t.child_nodes.getD i default).getPath p)
    by_cases hi : i < t.child_nodes.length
    · exact ih (h.child (getD_mem_of_lt hi default))
    · rw [List.getD_eq_default _ _ (Nat.le_of_not_lt hi)]
      exact ih wf_default

theorem wf_setPath [Inhabited BB] (hm : WfStats m) :
    ∀ (p : List ℕ) (t : Node Move BB), WfStats t → WfStats (t.setPath p m) := by
  intro p
  induction p with
  | nil => intro t _; cases t; exact hm
  | cons i p ih =>
    intro t ht
    cases t with
    | mk mv g bb ve pvl pv visits wins term ch =>
      refine WfStats.of_le_of_children (by simpa using ht.le) ?_
      intro c hc
      simp only [Node.setPath, Node.child_nodes_mk] at hc
      rcases mem_modifyAt hc with hc | ⟨y, hy, rfl⟩
      · exact ht.child (by simpa using hc)
      · exact ih y (ht.child (by simpa using hy))

theorem wf_bp_update {r : ℚ} {s : String} (h : WfStats n) :
    WfStats (bp_update r s n) := by
  refine WfStats.of_le_of_children ?_ (by simpa using fun c hc => h.child hc)
  rw [bp_update_wins, bp_update_number_of_visits]
  exact Nat.add_le_add h.le win_increment_le_one

theorem wf_back_propagate_path {r : ℚ} {s : String} :
    ∀ (p : List ℕ) (t : Node Move BB), WfStats t →
      WfStats (back_propagate_path r s t p) := by
  intro p
  induction p with
  | nil => intro t ht; cases t; exact wf_bp_update ht
  | cons i p ih =>
    intro t ht
    cases t with
    | mk mv g bb ve pvl pv visits wins term ch =>
      simp only [back_propagate_path]
      refine WfStats.of_le_of_children ?_ ?_
      · simpa using Nat.add_le_add ht.le (@win_increment_le_one r s _)
      · intro c hc
        simp only [Node.child_nodes_mk] at hc
        rcases mem_modifyAt hc with hc | ⟨y, hy, rfl⟩
        · exact ht.child (by simpa using hc)
        · exact ih y (ht.child (by simpa using hy))

theorem wf_descend [DecidableEq Move] [Inhabited BB] {fuel : ℕ}
    {t t' : Node Move BB} {p p' : List ℕ}
    (hok : descend ctx fuel t p = .ok (t', p')) (ht : WfStats t) : WfStats t' := by
  induction fuel generalizing t p with
  | zero => exact absurd hok (by simp [descend])
  | succ fuel ih =>
    rw [descend] at hok
    by_cases h0 : (t.getPath p).number_of_visits = 0
    · rw [if_pos h0] at hok
      cases hok
      exact ht
    · rw [if_neg h0] at hok
      cases hpv : (t.getPath p).policy_vector_legal_moves with
      | some v =>
        rw [hpv] at hok
        dsimp only at hok
        by_cases hterm : (t.getPath p).terminal_game_state
        · rw [if_pos hterm] at hok
          cases hok
          exact ht
        · rw [if_neg hterm] at hok
          by_cases hi : argmax v < (t.getPath p).child_nodes.length
          · rw [if_pos hi] at hok
            exact ih hok ht
          · rw [if_neg hi] at hok
            exact absurd hok (by simp)
      | none =>
        rw [hpv] at hok
        dsimp only at hok
        cases hgpv : get_policy_vector ctx (t.getPath p) with
        | error e => rw [hgpv] at hok; exact absurd hok (by simp)
        | ok n' =>
          rw [hgpv] at hok
          dsimp only at hok
          exact ih hok
            (wf_setPath (wf_get_policy_vector (wf_getPath ht p) hgpv) p t ht)

theorem wf_mcts_iter [DecidableEq Move] [Inhabited BB] {fuel : ℕ}
    {t t' : Node Move BB} {noise : List ℚ}
    (hok : mcts_iter ctx fuel t noise = .ok t') (ht : WfStats t) : WfStats t' := by
  unfold mcts_iter at hok
  cases hpv : t.policy_vector_legal_moves with
  | none => rw [hpv] at hok; exact absurd hok (by simp)
  | some rootScores =>
    rw [hpv] at hok
    dsimp only at hok
    by_cases hi : argmax (addVec rootScores noise) < t.child_nodes.length
    · rw [if_pos hi] at hok
      cases hdes : descend ctx fuel t [argmax (addVec rootScores noise)] with
      | error e => rw [hdes] at hok; exact absurd hok (by simp)
      | ok tp =>
        rw [hdes] at hok
        dsimp only at hok
        cases hok
        exact wf_back_propagate_path tp.2 tp.1 (wf_descend hdes ht)
    · rw [if_neg hi] at hok
      exact absurd hok (by simp)

theorem wf_mcts_loop [DecidableEq Move] [Inhabited BB] {fuel : ℕ} :
    ∀ {noises : List (List ℚ)} {t t' : Node Move BB},
      mcts_loop ctx fuel t noises = .ok t' → WfStats t → WfStats t' := by
  intro noises
  induction noises with
  | nil =>
    intro t t' hok ht
    rw [mcts_loop] at hok
    cases hok
    exact ht
  | cons noise rest ih =>
    intro t t' hok ht
    rw [mcts_loop] at hok
    cases hit : mcts_iter ctx fuel t noise with
    | error e => rw [hit] at hok; exact absurd hok (by simp)
    | ok t1 =>
      rw [hit] at hok
      exact ih hok (wf_mcts_iter hit ht)

theorem wf_MCTS [DecidableEq Move] [Inhabited BB] {fuel : ℕ}
    {root r : Node Move BB} {noises : List (List ℚ)}
    (hok : MCTS ctx fuel root noises = .ok r) (hroot : WfStats root) : WfStats r := by
  unfold MCTS at hok
  by_cases hterm : root.terminal_game_state
  · rw [if_pos hterm] at hok
    cases hok
    exact hroot
  · rw [if_neg hterm] at hok
    cases hgpv : get_policy_vector ctx root with
    | error e => rw [hgpv] at hok; exact absurd hok (by simp)
    | ok root' =>
      rw [hgpv] at hok
      exact wf_mcts_loop hok (wf_get_policy_vector hroot hgpv)

end WfLemmas

/-! ### A concrete instantiation of the external collaborators

Used by the witnesses and counterexamples: moves are numbered, a board is
encoded by its move counter, and the oracles are simple total functions. -/

def exCtx : Ctx ℕ ℕ where
  to_bits := fun g => g.move_counter
  value_network := fun b => if b = 2 then 9 / 10 else if b = 1 then 2 / 5 else 1 / 2
  policy_network := fun _ => [1]
  sqrt := fun x => x
  log := fun _ => 0

/-- A game position with no legal moves that the engine has not flagged
as resolved (`stalemate = false`), reached after 2 moves. -/
def gG : Game ℕ := .mk [] "w" false none 2

/-- A position with one legal move `0` leading to `gG`. -/
def gX : Game ℕ := .mk [(0, gG)] "b" false none 1

/-- The root position: one legal move `0` leading to `gX`. -/
def gR : Game ℕ := .mk [(0, gX)] "w" false none 0

/-- A resolved white-win terminal position. -/
def gT9 : Game ℕ := .mk [] "b" true (some true) 5

/-- A root position whose only move leads to the terminal `gT9`. -/
def gR9 : Game ℕ := .mk [(0, gT9)] "w" false none 4

def okOr {α : Type} (d : α) : Except MErr α → α
  | .ok a => a
  | .error _ => d

/-- The search tree after one `MCTS` iteration from `gR`: the root has one
child (for `gX`) that now has one visit but still no policy vector. -/
def exT1 : Node ℕ ℕ := okOr default (MCTS exCtx 3 (Game_Node.init exCtx gR none) [[0]])

/-- Simple standalone nodes (mover "w" / mover "b") used as a
backpropagation chain. -/
def exNodeW : Node ℕ ℕ := .mk none (Game.mk [] "w" false none 0) 0 0 none none 3 1 true []

def exNodeB : Node ℕ ℕ := .mk none (Game.mk [] "b" false none 0) 0 0 none none 5 2 true []

def exChild5 : Node ℕ ℕ := .mk (some 5) (Game.mk [] "b" false none 0) 0 0 none none 0 0 true []

def exChild7 : Node ℕ ℕ := .mk (some 7) (Game.mk [] "w" false none 0) 0 0 none none 0 0 true []

/-- A node with two children whose identifying moves are `5` and `7`. -/
def exParent : Node ℕ ℕ := .mk none gR 0 0 none none 0 0 false [exChild5, exChild7]

/-! ### Claim C4: the UCB1 score -/

/-- C4: for every node that has a parent, the UCB1 score with the default
exploration constant `C = sqrt 2` equals `w/n + C*sqrt(ln N / n)` when its
visit count `n` is positive (with `N` positive so that `ln N` is defined;
`N = 0` with `n > 0` cannot arise in a search and would raise `math.log`'s
domain error, which is not a division by zero); when `n = 0` it equals
`C*sqrt(ln N)` if `N > 0` and exactly `0` if `N = 0`, and the
division-by-zero case (`n = 0`) always returns a value — it never
propagates as an exception. -/
theorem ucb1_score_spec (ctx : Ctx Move BB) (w n N : ℕ) :
    (n ≠ 0 → N ≠ 0 →
      get_ucb1_score ctx w n N (ctx.sqrt 2) =
        .ok ((w : ℚ) / n + ctx.sqrt 2 * ctx.sqrt (ctx.log N / n))) ∧
    (n = 0 → 0 < N →
      get_ucb1_score ctx w n N (ctx.sqrt 2) =
        .ok (ctx.sqrt 2 * ctx.sqrt (ctx.log N))) ∧
    (n = 0 → N = 0 → get_ucb1_score ctx w n N (ctx.sqrt 2) = .ok 0) ∧
    (n = 0 → ∃ q : ℚ, get_ucb1_score ctx w n N (ctx.sqrt 2) = .ok q) := by
  refine ⟨?_, ?_, ?_, ?_⟩
  · intro hn hN
    simp [get_ucb1_score, hn, hN]
  · intro hn hN
    simp [get_ucb1_score, hn, hN]
  · intro hn hN
    simp [get_ucb1_score, hn, hN]
  · intro hn
    rcases Nat.eq_zero_or_pos N with hN | hN
    · exact ⟨0, by simp [get_ucb1_score, hn, hN]⟩
    · exact ⟨ctx.sqrt 2 * ctx.sqrt (ctx.log N), by simp [get_ucb1_score, hn, hN]⟩

theorem ucb1_score_spec_witness :
    get_ucb1_score exCtx 1 2 3 (exCtx.sqrt 2) =
      .ok (((1 : ℕ) : ℚ) / ((2 : ℕ) : ℚ) +
        exCtx.sqrt 2 * exCtx.sqrt (exCtx.log ((3 : ℕ) : ℚ) / ((2 : ℕ) : ℚ))) ∧
    get_ucb1_score exCtx 0 0 7 (exCtx.sqrt 2) =
      .ok (exCtx.sqrt 2 * exCtx.sqrt (exCtx.log ((7 : ℕ) : ℚ))) ∧
    get_ucb1_score exCtx 0 0 0 (exCtx.sqrt 2) = .ok 0 :=
  ⟨(ucb1_score_spec exCtx 1 2 3).1 (by decide) (by decide),
   (ucb1_score_spec exCtx 0 0 7).2.1 rfl (by decide),
   (ucb1_score_spec exCtx 0 0 0).2.2.1 rfl rfl⟩

/-! ### Claim C5: the value evaluation is fixed at construction -/

/-- C5: at construction, a state resolved as terminal gets value evaluation
exactly 1.0 (white win), 0.0 (black win) or 0.5 (draw); otherwise the value
is exactly the value oracle's output on the encoded state; and no search
operation mutates it afterwards (policy-vector computation, child
expansion and backpropagation updates all preserve it). -/
theorem init_value_spec [DecidableEq Move] (ctx : Ctx Move BB) (g : Game Move)
    (mv : Option Move) :
    (g.stalemate = true → g.white_win = some true →
      (Game_Node.init ctx g mv).value_evaluation = 1) ∧
    (g.stalemate = true → g.white_win = some false →
      (Game_Node.init ctx g mv).value_evaluation = 0) ∧
    (g.stalemate = true → g.white_win = none →
      (Game_Node.init ctx g mv).value_evaluation = 1 / 2) ∧
    (g.stalemate = false →
      (Game_Node.init ctx g mv).value_evaluation = ctx.value_network (ctx.to_bits g)) ∧
    (∀ n n' : Node Move BB, get_policy_vector ctx n = .ok n' →
      n'.value_evaluation = n.value_evaluation) ∧
    (∀ (n : Node Move BB) (r : ℚ) (s : String),
      (bp_update r s n).value_evaluation = n.value_evaluation) ∧
    (∀ n : Node Move BB, (init_all_children ctx n).value_evaluation = n.value_evaluation) := by
  refine ⟨?_, ?_, ?_, ?_, ?_, ?_, ?_⟩
  · intro h1 h2; simp [init_value_evaluation, h1, h2]
  · intro h1 h2; simp [init_value_evaluation, h1, h2]
  · intro h1 h2; simp [init_value_evaluation, h1, h2]
  · intro h1; simp [init_value_evaluation, h1]
  · intro n n' hok; exact (get_policy_vector_preserves hok).2.2.2.2.2.1
  · intro n r s; simp
  · intro n; simp

theorem init_value_spec_witness :
    (Game_Node.init exCtx gT9 none).value_evaluation = 1 ∧
    (Game_Node.init exCtx gR none).value_evaluation =
      exCtx.value_network (exCtx.to_bits gR) :=
  ⟨(init_value_spec exCtx gT9 none).1 rfl rfl,
   (init_value_spec exCtx gR none).2.2.2.1 rfl⟩

/-! ### Claim C10: `make_a_move` -/

theorem find?_first {α : Type} (p : α → Bool) :
    ∀ (l : List α) (a : α), l.find? p = some a →
      ∃ i : Fin l.length, l.get i = a ∧
        ∀ j : Fin l.length, (j : ℕ) < (i : ℕ) → p (l.get j) = false := by
  intro l
  induction l with
  | nil => intro a h; simp at h
  | cons x xs ih =>
    intro a h
    by_cases hp : p x
    · rw [List.find?_cons_of_pos _ hp] at h
      cases h
      exact ⟨⟨0, by simp⟩, rfl, fun j hj => absurd hj (by simp)⟩
    · rw [List.find?_cons_of_neg _ (by simpa using hp)] at h
      obtain ⟨i, hget, hfirst⟩ := ih a h
      refine ⟨⟨(i : ℕ) + 1, by simp⟩, by simpa using hget, ?_⟩
      intro j hj
      have hj1 : (j : ℕ) < (i : ℕ) + 1 := hj
      cases hjj : (j : ℕ) with
      | zero =>
        have hx : (x :: xs).get j = x := by
          cases j with
          | mk jv hjv => cases hjj; rfl
        rw [hx]
        simpa using hp
      | succ j' =>
        have hj' : j' < xs.length := by
          have h2 := j.isLt
          rw [hjj] at h2
          simpa using h2
        have hlt : j' < (i : ℕ) := by rw [hjj] at hj1; omega
        have hx : (x :: xs).get j = xs.get ⟨j', hj'⟩ := by
          cases j with
          | mk jv hjv => cases hjj; rfl
        rw [hx]
        exact hfirst ⟨j', hj'⟩ hlt

/-- C10: `make_a_move(move)` returns the first child whose `move` equals
the argument; when no child matches (in particular when `child_nodes` is
empty) it returns `None`, raising no error and changing no state (it is a
pure function of the node). -/
theorem make_a_move_spec [DecidableEq Move] (n : Node Move BB) (m : Move) :
    (n.child_nodes = [] → make_a_move n m = none) ∧
    (make_a_move n m = none ↔ ∀ c ∈ n.child_nodes, c.move ≠ some m) ∧
    (∀ c, make_a_move n m = some c →
      c.move = some m ∧
      ∃ i : Fin n.child_nodes.length, n.child_nodes.get i = c ∧
        ∀ j : Fin n.child_nodes.length, (j : ℕ) < (i : ℕ) →
          (n.child_nodes.get j).move ≠ some m) := by
  refine ⟨?_, ?_, ?_⟩
  · intro h; simp [make_a_move, h]
  · simp [make_a_move, List.find?_eq_none]
  · intro c hc
    have hpc := List.find?_some hc
    refine ⟨by simpa using hpc, ?_⟩
    obtain ⟨i, hget, hfirst⟩ := find?_first _ _ _ hc
    exact ⟨i, hget, fun j hj => by simpa using hfirst j hj⟩

theorem make_a_move_spec_witness :
    exChild7.move = some 7 ∧
    (∃ i : Fin exParent.child_nodes.length, exParent.child_nodes.get i = exChild7 ∧
      ∀ j : Fin exParent.child_nodes.length, (j : ℕ) < (i : ℕ) →
        (exParent.child_nodes.get j).move ≠ some 7) :=
  (make_a_move_spec exParent 7).2.2 exChild7 rfl

/-! ### Claim C3: backpropagation over a parent chain -/

theorem getD_map_of_lt {α β : Type} (f : α → β) {l : List α} {i : ℕ}
    (h : i < l.length) (da : α) (db : β) :
    (l.map f).getD i db = f (l.getD i da) := by
  rw [getD_eq_getElem_of_lt _ _ (by simpa using h), getD_eq_getElem_of_lt _ _ h]
  simp

/-- C3: one `back_propagate` call over a parent chain `[leaf, ..., root]`
(linked in the source by `parent_node` references, the root having none, so
the loop stops after the root) increments every chain node's visit count by
exactly 1, and increments a node's win count by 1 iff its mover identity
equals the leaf's and `result > 0.75`, or differs from the leaf's and
`result < 0.25`; for `0.25 ≤ result ≤ 0.75` no win count changes. -/
theorem back_propagate_spec [Inhabited BB] (chain : List (Node Move BB))
    (result : ℚ) (s : String) :
    (back_propagate chain result s).length = chain.length ∧
    ∀ i, i < chain.length →
      ((back_propagate chain result s).getD i default).number_of_visits =
        (chain.getD i default).number_of_visits + 1 ∧
      (((back_propagate chain result s).getD i default).wins =
          (chain.getD i default).wins + 1 ↔
        ((chain.getD i default).game.move_turn = s ∧ 3 / 4 < result) ∨
        (¬(chain.getD i default).game.move_turn = s ∧ result < 1 / 4)) ∧
      (1 / 4 ≤ result → result ≤ 3 / 4 →
        ((back_propagate chain result s).getD i default).wins =
          (chain.getD i default).wins) := by
  refine ⟨by simp [back_propagate], ?_⟩
  intro i hi
  rw [show back_propagate chain result s = chain.map (bp_update result s) from rfl,
    getD_map_of_lt _ hi default default]
  refine ⟨by simp, ?_, ?_⟩
  · rw [bp_update_wins]
    unfold win_increment
    split <;> split <;> simp_all
  · intro h1 h2
    have hA : ¬(3 / 4 < result) := not_lt.mpr h2
    have hB : ¬(result < 1 / 4) := not_lt.mpr h1
    rw [bp_update_wins]
    unfold win_increment
    split <;> simp [hA, hB]

theorem back_propagate_spec_witness :
    ((back_propagate [exNodeW, exNodeB] (9 / 10) "w").getD 0 default).number_of_visits =
      (([exNodeW, exNodeB] : List (Node ℕ ℕ)).getD 0 default).number_of_visits + 1 ∧
    (((back_propagate [exNodeW, exNodeB] (9 / 10) "w").getD 0 default).wins =
        (([exNodeW, exNodeB] : List (Node ℕ ℕ)).getD 0 default).wins + 1 ↔
      ((([exNodeW, exNodeB] : List (Node ℕ ℕ)).getD 0 default).game.move_turn = "w" ∧
          3 / 4 < (9 / 10 : ℚ)) ∨
      (¬(([exNodeW, exNodeB] : List (Node ℕ ℕ)).getD 0 default).game.move_turn = "w" ∧
          (9 / 10 : ℚ) < 1 / 4)) ∧
    (1 / 4 ≤ (9 / 10 : ℚ) → (9 / 10 : ℚ) ≤ 3 / 4 →
      ((back_propagate [exNodeW, exNodeB] (9 / 10) "w").getD 0 default).wins =
        (([exNodeW, exNodeB] : List (Node ℕ ℕ)).getD 0 default).wins) :=
  (back_propagate_spec [exNodeW, exNodeB] (9 / 10) "w").2 0 (by decide)

/-! ### Claim C6: expansion produces one child per legal move, in order -/

/-- C6: a successful `get_policy_vector` on a node whose children are
absent creates exactly one child per legal move of its state, in the
state's legal-move order, with `children[i].move = legalMoves[i]`; and a
call on a node whose children are already present leaves the children
untouched (the `children empty` guard), so repeated calls never duplicate
children. -/
theorem children_expansion_spec [DecidableEq Move] [Inhabited BB]
    (ctx : Ctx Move BB) (n n' : Node Move BB)
    (hok : get_policy_vector ctx n = .ok n') :
    (n.child_nodes = [] →
      n'.child_nodes.length = n.game.legal_moves.length ∧
      ∀ i, i < n.game.legal_moves.length →
        (n'.child_nodes.getD i default).move = n.game.legal_moves[i]?) ∧
    (n.child_nodes ≠ [] → n'.child_nodes = n.child_nodes) := by
  constructor
  · intro hch
    rw [get_policy_vector_children_of_empty hch hok]
    refine ⟨by simp, ?_⟩
    intro i hi
    rw [getD_eq_getElem_of_lt _ _ (by simpa using hi)]
    simp [List.getElem?_eq_getElem hi]
  · intro hch
    exact get_policy_vector_children_of_ne hch hok

/-- The root node of `gR` right after its first `get_policy_vector` call. -/
def exRoot1 : Node ℕ ℕ := okOr default (get_policy_vector exCtx (Game_Node.init exCtx gR none))

theorem children_expansion_spec_witness :
    (exRoot1.child_nodes.length = (Game_Node.init exCtx gR none).game.legal_moves.length ∧
      ∀ i, i < (Game_Node.init exCtx gR none).game.legal_moves.length →
        (exRoot1.child_nodes.getD i default).move =
          (Game_Node.init exCtx gR none).game.legal_moves[i]?) :=
  (children_expansion_spec exCtx (Game_Node.init exCtx gR none) exRoot1
      (by norm_num [exRoot1, okOr, get_policy_vector, expand_if_empty,
        init_all_children, find_child_node_information, exceptMap, get_ucb1_score,
        blend, normalized_policy, addVec, set_policy_fields, Game_Node.init,
        Game.play, Game.legal_moves, exCtx, gR, gX, gG])).1 rfl

/-! ### Claim C8: the fixed-length zero-padded policy vector -/

theorem find_child_node_information_ok_elim {ctx : Ctx Move BB} {m : Node Move BB}
    {info : List ℚ × List ℚ} (h : find_child_node_information ctx m = .ok info) :
    info.1 = m.child_nodes.map (fun c => c.value_evaluation) ∧
    exceptMap (fun c => get_ucb1_score ctx c.wins c.number_of_visits
      m.number_of_visits (ctx.sqrt 2)) m.child_nodes = .ok info.2 := by
  unfold find_child_node_information at h
  cases he : exceptMap (fun c => get_ucb1_score ctx c.wins c.number_of_visits
      m.number_of_visits (ctx.sqrt 2)) m.child_nodes with
  | error e => rw [he] at h; exact absurd h (by simp)
  | ok u =>
    rw [he] at h
    cases h
    exact ⟨rfl, rfl⟩

theorem blend_length {ctx : Ctx Move BB} {m : Node Move BB} {info : List ℚ × List ℚ}
    (hfind : find_child_node_information ctx m = .ok info)
    (hch : m.child_nodes.length = m.game.legal_moves.length)
    (hpno : m.game.legal_moves.length ≤ (ctx.policy_network m.bitboard).length) :
    (blend ctx m info).length = m.game.legal_moves.length := by
  obtain ⟨h1, h2⟩ := find_child_node_information_ok_elim hfind
  have l1 : info.1.length = m.child_nodes.length := by rw [h1]; simp
  have l2 : info.2.length = m.child_nodes.length := exceptMap_ok_length h2
  simp only [blend, addVec_length, List.length_take, normalized_policy,
    List.length_map, l1, l2, hch]
  omega

theorem getD_replicate_zero {n j : ℕ} : (List.replicate n (0 : ℚ)).getD j 0 = 0 := by
  by_cases h : j < n
  · rw [getD_eq_getElem_of_lt _ _ (by simpa using h)]
    simp
  · exact List.getD_eq_default _ _ (by simpa using Nat.le_of_not_lt h)

/-- C8: after a successful `get_policy_vector`, the stored `policy_vector`
has length exactly `MAX_MOVES = 218`; its first `len(legalMoves)` entries
are precisely the blended legal-move scores (the stored
`policy_vector_legal_moves`), and every entry at an index at or beyond the
legal-move count is exactly 0. -/
theorem policy_vector_padding_spec [DecidableEq Move] [Inhabited BB]
    (ctx : Ctx Move BB) (n n' : Node Move BB)
    (hok : get_policy_vector ctx n = .ok n')
    (hlen : n.child_nodes = [] ∨ n.child_nodes.length = n.game.legal_moves.length)
    (hpno : n.game.legal_moves.length ≤ (ctx.policy_network n.bitboard).length) :
    ∃ L, n'.policy_vector_legal_moves = some L ∧
      L.length = n.game.legal_moves.length ∧
      n'.policy_vector = some (L ++ List.replicate (218 - n.game.legal_moves.length) 0) ∧
      (n'.policy_vector.getD []).length = 218 ∧
      ∀ j, n.game.legal_moves.length ≤ j → (n'.policy_vector.getD []).getD j 0 = 0 := by
  obtain ⟨info, hfind, hk, hn'⟩ := get_policy_vector_ok_elim hok
  rw [expand_if_empty_game] at hk
  have hmch : (expand_if_empty ctx n).child_nodes.length =
      (expand_if_empty ctx n).game.legal_moves.length := by
    rw [expand_if_empty_game]
    by_cases hch : n.child_nodes = []
    · rw [expand_if_empty_child_nodes_of_empty hch]; simp
    · rw [expand_if_empty_of_ne hch]
      rcases hlen with h | h
      · exact absurd h hch
      · exact h
  have hL : (blend ctx (expand_if_empty ctx n) info).length = n.game.legal_moves.length := by
    rw [← @expand_if_empty_game Move BB _ ctx n]
    exact blend_length hfind hmch
      (by rw [expand_if_empty_game, expand_if_empty_bitboard]; exact hpno)
  refine ⟨blend ctx (expand_if_empty ctx n) info, by rw [hn']; simp, hL, ?_, ?_, ?_⟩
  · rw [hn']
    simp [expand_if_empty_game]
  · rw [hn']
    simp only [set_policy_fields_policy_vector, Option.getD_some, List.length_append,
      List.length_replicate, hL, expand_if_empty_game]
    omega
  · intro j hj
    rw [hn']
    simp only [set_policy_fields_policy_vector, Option.getD_some, expand_if_empty_game]
    rw [List.getD_append_right _ _ _ _ (by rw [hL]; exact hj)]
    exact getD_replicate_zero

theorem policy_vector_padding_spec_witness :
    ∃ L, exRoot1.policy_vector_legal_moves = some L ∧
      L.length = (Game_Node.init exCtx gR none).game.legal_moves.length ∧
      exRoot1.policy_vector = some (L ++
        List.replicate (218 - (Game_Node.init exCtx gR none).game.legal_moves.length) 0) ∧
      (exRoot1.policy_vector.getD []).length = 218 ∧
      ∀ j, (Game_Node.init exCtx gR none).game.legal_moves.length ≤ j →
        (exRoot1.policy_vector.getD []).getD j 0 = 0 :=
  policy_vector_padding_spec exCtx (Game_Node.init exCtx gR none) exRoot1
    (by norm_num [exRoot1, okOr, get_policy_vector, expand_if_empty,
      init_all_children, find_child_node_information, exceptMap, get_ucb1_score,
      blend, normalized_policy, addVec, set_policy_fields, Game_Node.init,
      Game.play, Game.legal_moves, exCtx, gR, gX, gG])
    (Or.inl rfl) (by decide)

/-! ### Claim C1: the additive blend of value, UCB1 and normalized prior -/

theorem getD_take_of_lt {α : Type} {l : List α} {k i : ℕ} (hik : i < k)
    (hil : i < l.length) (d : α) :
    (l.take k).getD i d = l.getD i d := by
  rw [getD_eq_getElem_of_lt _ _ (by simp; omega), getD_eq_getElem_of_lt _ _ hil]
  simp

/-- C1: for a non-terminal node whose children are present, a successful
`get_policy_vector` sets, for every `i` below the legal-move count,
`legalMoveScores[i] = children[i].value_evaluation + children[i].ucb1_score
+ rawPolicyOutput[i] / (sum of ALL raw policy outputs — the whole output
row, including slots beyond the legal-move count)`. -/
theorem policy_blend_spec [DecidableEq Move] [Inhabited BB]
    (ctx : Ctx Move BB) (n n' : Node Move BB) (i : ℕ)
    (hok : get_policy_vector ctx n = .ok n')
    (hne : n.child_nodes ≠ [])
    (hlen : n.child_nodes.length = n.game.legal_moves.length)
    (hpno : n.game.legal_moves.length ≤ (ctx.policy_network n.bitboard).length)
    (hi : i < n.game.legal_moves.length) :
    ∃ u, get_ucb1_score ctx (n.child_nodes.getD i default).wins
        (n.child_nodes.getD i default).number_of_visits n.number_of_visits
        (ctx.sqrt 2) = .ok u ∧
      (n'.policy_vector_legal_moves.getD []).getD i 0 =
        (n.child_nodes.getD i default).value_evaluation + u +
        (ctx.policy_network n.bitboard).getD i 0 /
          (ctx.policy_network n.bitboard).sum := by
  obtain ⟨info, hfind, hk, hn'⟩ := get_policy_vector_ok_elim hok
  rw [expand_if_empty_of_ne hne] at hfind hn'
  obtain ⟨hev, hucb⟩ := find_child_node_information_ok_elim hfind
  have hchi : i < n.child_nodes.length := by rw [hlen]; exact hi
  have hulen : info.2.length = n.child_nodes.length := exceptMap_ok_length hucb
  refine ⟨info.2.getD i 0, exceptMap_ok_getD default 0 hucb i hchi, ?_⟩
  rw [hn']
  simp only [set_policy_fields_policy_vector_legal_moves, Option.getD_some]
  unfold blend
  rw [addVec_getD (by rw [addVec_length]; simp [hev, hulen]; omega)
      (by simp only [List.length_take, normalized_policy, List.length_map]; omega),
    addVec_getD (by simp [hev]; omega) (by omega),
    getD_take_of_lt hi (by simp [normalized_policy]; omega) 0]
  unfold normalized_policy
  rw [hev, getD_map_of_lt _ hchi default 0, getD_map_of_lt _ (by omega) 0 0]

/-- The root node of `gR` after a second `get_policy_vector` call (the
first call created the single child). -/
def exRoot2 : Node ℕ ℕ := okOr default (get_policy_vector exCtx exRoot1)

theorem policy_blend_spec_witness :
    ∃ u, get_ucb1_score exCtx (exRoot1.child_nodes.getD 0 default).wins
        (exRoot1.child_nodes.getD 0 default).number_of_visits
        exRoot1.number_of_visits (exCtx.sqrt 2) = .ok u ∧
      (exRoot2.policy_vector_legal_moves.getD []).getD 0 0 =
        (exRoot1.child_nodes.getD 0 default).value_evaluation + u +
        (exCtx.policy_network exRoot1.bitboard).getD 0 0 /
          (exCtx.policy_network exRoot1.bitboard).sum :=
  policy_blend_spec exCtx exRoot1 exRoot2 0
    (by norm_num [exRoot2, exRoot1, okOr, get_policy_vector, expand_if_empty,
      init_all_children, find_child_node_information, exceptMap, get_ucb1_score,
      blend, normalized_policy, addVec, set_policy_fields, Game_Node.init,
      Game.play, Game.legal_moves, exCtx, gR, gX, gG])
    (by norm_num [exRoot1, okOr, get_policy_vector, expand_if_empty,
      init_all_children, find_child_node_information, exceptMap, get_ucb1_score,
      blend, normalized_policy, addVec, set_policy_fields, Game_Node.init,
      Game.play, Game.legal_moves, exCtx, gR, gX, gG])
    (by norm_num [exRoot1, okOr, get_policy_vector, expand_if_empty,
      init_all_children, find_child_node_information, exceptMap, get_ucb1_score,
      blend, normalized_policy, addVec, set_policy_fields, Game_Node.init,
      Game.play, Game.legal_moves, exCtx, gR, gX, gG])
    (by norm_num [exRoot1, okOr, get_policy_vector, expand_if_empty,
      init_all_children, find_child_node_information, exceptMap, get_ucb1_score,
      blend, normalized_policy, addVec, set_policy_fields, Game_Node.init,
      Game.play, Game.legal_moves, exCtx, gR, gX, gG])
    (by norm_num [exRoot1, okOr, get_policy_vector, expand_if_empty,
      init_all_children, find_child_node_information, exceptMap, get_ucb1_score,
      blend, normalized_policy, addVec, set_policy_fields, Game_Node.init,
      Game.play, Game.legal_moves, exCtx, gR, gX, gG])

/-! ### Claim C2: what happens when descent meets a visited, vector-less node -/

/-- C2 (amended): when the descent loop reaches a non-terminal node with
`visitCount > 0` that has no policy vector (and no children yet), the
driver computes that node's policy vector — but it does NOT stop there:
the loop re-checks, selects the best of the freshly created children (all
of which have `visitCount = 0`), and descent stops at that child; the
child, not the expanded node, is the evaluation point whose
`value_evaluation` is backpropagated this iteration. -/
theorem descend_expand_spec [DecidableEq Move] [Inhabited BB] (ctx : Ctx Move BB)
    (fuel : ℕ) (t n' : Node Move BB) (p : List ℕ)
    (hvalid : Node.validPath p t = true)
    (hvis : ¬(t.getPath p).number_of_visits = 0)
    (hpv : (t.getPath p).policy_vector_legal_moves = none)
    (hterm : (t.getPath p).terminal_game_state = false)
    (hch : (t.getPath p).child_nodes = [])
    (hlegal : (t.getPath p).game.legal_moves ≠ [])
    (hpno : ctx.policy_network (t.getPath p).bitboard ≠ [])
    (hok : get_policy_vector ctx (t.getPath p) = .ok n') :
    descend ctx (fuel + 3) t p =
      .ok (t.setPath p n', p ++ [argmax (n'.policy_vector_legal_moves.getD [])]) ∧
    ((t.setPath p n').getPath
      (p ++ [argmax (n'.policy_vector_legal_moves.getD [])])).number_of_visits = 0 := by
  obtain ⟨info, hfind, hk, hn'⟩ := get_policy_vector_ok_elim hok
  have hmch : (expand_if_empty ctx (t.getPath p)).child_nodes =
      (t.getPath p).game.legal_moves.map
        (fun mv => Game_Node.init ctx ((t.getPath p).game.play mv) (some mv)) :=
    expand_if_empty_child_nodes_of_empty hch
  obtain ⟨hev, hucb⟩ := find_child_node_information_ok_elim hfind
  have hmlen : (expand_if_empty ctx (t.getPath p)).child_nodes.length =
      (t.getPath p).game.legal_moves.length := by rw [hmch]; simp
  have hLlen : (blend ctx (expand_if_empty ctx (t.getPath p)) info).length =
      min (t.getPath p).game.legal_moves.length
        (ctx.policy_network (t.getPath p).bitboard).length := by
    have l1 : info.1.length = (expand_if_empty ctx (t.getPath p)).child_nodes.length := by
      rw [hev]; simp
    have l2 : info.2.length = (expand_if_empty ctx (t.getPath p)).child_nodes.length :=
      exceptMap_ok_length hucb
    simp only [blend, addVec_length, List.length_take, normalized_policy,
      List.length_map, l1, l2, hmlen, expand_if_empty_game, expand_if_empty_bitboard]
    omega
  have hLpos : 0 < (blend ctx (expand_if_empty ctx (t.getPath p)) info).length := by
    rw [hLlen]
    have h1 : 0 < (t.getPath p).game.legal_moves.length := List.length_pos.mpr hlegal
    have h2 : 0 < (ctx.policy_network (t.getPath p).bitboard).length :=
      List.length_pos.mpr hpno
    omega
  have hLne : blend ctx (expand_if_empty ctx (t.getPath p)) info ≠ [] := by
    intro h
    rw [h] at hLpos
    simp at hLpos
  have hn'pvl : n'.policy_vector_legal_moves =
      some (blend ctx (expand_if_empty ctx (t.getPath p)) info) := by
    rw [hn']; simp
  have hn'ch : n'.child_nodes = (expand_if_empty ctx (t.getPath p)).child_nodes := by
    rw [hn']; simp
  have hargm : argmax (blend ctx (expand_if_empty ctx (t.getPath p)) info) <
      n'.child_nodes.length := by
    rw [hn'ch, hmlen]
    exact lt_of_lt_of_le (argmax_lt_length hLne) (by rw [hLlen]; exact min_le_left _ _)
  have hn'vis : n'.number_of_visits = (t.getPath p).number_of_visits :=
    (get_policy_vector_preserves hok).2.2.1
  have hn'term : n'.terminal_game_state = false := by
    rw [(get_policy_vector_preserves hok).2.2.2.2.1]
    exact hterm
  have hb : argmax (blend ctx (expand_if_empty ctx (t.getPath p)) info) <
      (List.map (fun mv => Game_Node.init ctx ((t.getPath p).game.play mv) (some mv))
        (t.getPath p).game.legal_moves).length := by
    rw [← hmch, ← hn'ch]
    exact hargm
  have hchild0 : (n'.child_nodes.getD
      (argmax (blend ctx (expand_if_empty ctx (t.getPath p)) info)) default).number_of_visits
        = 0 := by
    rw [hn'ch, hmch, getD_eq_getElem_of_lt _ _ hb]
    simp
  rw [hn'pvl, Option.getD_some]
  constructor
  · rw [show fuel + 3 = fuel + 2 + 1 from rfl, descend, if_neg hvis, hpv]
    dsimp only
    rw [hok]
    dsimp only
    rw [show fuel + 2 = fuel + 1 + 1 from rfl, descend,
      getPath_setPath _ _ _ hvalid,
      if_neg (by rw [hn'vis]; exact hvis), hn'pvl]
    dsimp only
    rw [hn'term, if_neg Bool.false_ne_true, if_pos hargm, descend,
      getPath_append, getPath_setPath _ _ _ hvalid]
    simp only [Node.getPath]
    rw [if_pos hchild0]
  · rw [getPath_append, getPath_setPath _ _ _ hvalid]
    simp only [Node.getPath]
    exact hchild0

/-- The node at path `[0]` of `exT1` after its `get_policy_vector` call
(the state the driver creates in iteration 2). -/
def exN2 : Node ℕ ℕ := okOr default (get_policy_vector exCtx (exT1.getPath [0]))

theorem descend_expand_spec_witness :
    descend exCtx (0 + 3) exT1 [0] =
      .ok (exT1.setPath [0] exN2, [0] ++ [argmax (exN2.policy_vector_legal_moves.getD [])]) ∧
    ((exT1.setPath [0] exN2).getPath
      ([0] ++ [argmax (exN2.policy_vector_legal_moves.getD [])])).number_of_visits = 0 :=
  descend_expand_spec exCtx 0 exT1 exN2 [0]
    (by norm_num [Node.validPath, exT1, okOr, MCTS, mcts_loop, mcts_iter, descend,
      back_propagate_path, bp_update, win_increment, Node.getPath, Node.setPath,
      modifyAt, argmax, argmaxAux, get_policy_vector, expand_if_empty,
      init_all_children, find_child_node_information, exceptMap, get_ucb1_score,
      blend, normalized_policy, addVec, set_policy_fields, Game_Node.init,
      Game.play, Game.legal_moves, exCtx, gR, gX, gG, String.reduceEq])
    (by norm_num [exT1, okOr, MCTS, mcts_loop, mcts_iter, descend,
      back_propagate_path, bp_update, win_increment, Node.getPath, Node.setPath,
      modifyAt, argmax, argmaxAux, get_policy_vector, expand_if_empty,
      init_all_children, find_child_node_information, exceptMap, get_ucb1_score,
      blend, normalized_policy, addVec, set_policy_fields, Game_Node.init,
      Game.play, Game.legal_moves, exCtx, gR, gX, gG, String.reduceEq])
    (by norm_num [exT1, okOr, MCTS, mcts_loop, mcts_iter, descend,
      back_propagate_path, bp_update, win_increment, Node.getPath, Node.setPath,
      modifyAt, argmax, argmaxAux, get_policy_vector, expand_if_empty,
      init_all_children, find_child_node_information, exceptMap, get_ucb1_score,
      blend, normalized_policy, addVec, set_policy_fields, Game_Node.init,
      Game.play, Game.legal_moves, exCtx, gR, gX, gG, String.reduceEq])
    (by norm_num [exT1, okOr, MCTS, mcts_loop, mcts_iter, descend,
      back_propagate_path, bp_update, win_increment, Node.getPath, Node.setPath,
      modifyAt, argmax, argmaxAux, get_policy_vector, expand_if_empty,
      init_all_children, find_child_node_information, exceptMap, get_ucb1_score,
      blend, normalized_policy, addVec, set_policy_fields, Game_Node.init,
      Game.play, Game.legal_moves, exCtx, gR, gX, gG, String.reduceEq])
    (by norm_num [exT1, okOr, MCTS, mcts_loop, mcts_iter, descend,
      back_propagate_path, bp_update, win_increment, Node.getPath, Node.setPath,
      modifyAt, argmax, argmaxAux, get_policy_vector, expand_if_empty,
      init_all_children, find_child_node_information, exceptMap, get_ucb1_score,
      blend, normalized_policy, addVec, set_policy_fields, Game_Node.init,
      Game.play, Game.legal_moves, exCtx, gR, gX, gG, String.reduceEq])
    (by norm_num [exT1, okOr, MCTS, mcts_loop, mcts_iter, descend,
      back_propagate_path, bp_update, win_increment, Node.getPath, Node.setPath,
      modifyAt, argmax, argmaxAux, get_policy_vector, expand_if_empty,
      init_all_children, find_child_node_information, exceptMap, get_ucb1_score,
      blend, normalized_policy, addVec, set_policy_fields, Game_Node.init,
      Game.play, Game.legal_moves, exCtx, gR, gX, gG, String.reduceEq])
    (by norm_num [exT1, okOr, MCTS, mcts_loop, mcts_iter, descend,
      back_propagate_path, bp_update, win_increment, Node.getPath, Node.setPath,
      modifyAt, argmax, argmaxAux, get_policy_vector, expand_if_empty,
      init_all_children, find_child_node_information, exceptMap, get_ucb1_score,
      blend, normalized_policy, addVec, set_policy_fields, Game_Node.init,
      Game.play, Game.legal_moves, exCtx, gR, gX, gG, String.reduceEq])
    (by norm_num [exN2, exT1, okOr, MCTS, mcts_loop, mcts_iter, descend,
      back_propagate_path, bp_update, win_increment, Node.getPath, Node.setPath,
      modifyAt, argmax, argmaxAux, get_policy_vector, expand_if_empty,
      init_all_children, find_child_node_information, exceptMap, get_ucb1_score,
      blend, normalized_policy, addVec, set_policy_fields, Game_Node.init,
      Game.play, Game.legal_moves, exCtx, gR, gX, gG, String.reduceEq])

/-- C2, counterexample to the claim as stated: in the second iteration of a
concrete search, descent reaches the node at path `[0]`, which has
`visitCount = 1 > 0` and no policy vector; the evaluation point of the
iteration is nevertheless NOT that node but its freshly created child at
path `[0, 0]`: the descent returns path `[0, 0]` whose node's
`value_evaluation` is `9/10`, different from the reached node's `2/5`, and
the full iteration backpropagates `9/10` (crediting the root with a win,
which a backpropagation of `2/5` would not do). -/
theorem descend_expand_cex :
    (exT1.getPath [0]).number_of_visits = 1 ∧
    (exT1.getPath [0]).policy_vector_legal_moves = none ∧
    (exT1.getPath [0]).terminal_game_state = false ∧
    (exT1.getPath [0]).value_evaluation = 2 / 5 ∧
    (descend exCtx 3 exT1 [0]).map
      (fun tp => (tp.2, (tp.1.getPath tp.2).value_evaluation)) = .ok ([0, 0], 9 / 10) ∧
    (mcts_iter exCtx 3 exT1 [0]).map
      (fun t => ((t.getPath []).wins, (t.getPath [0, 0]).number_of_visits)) = .ok (1, 1) ∧
    (2 : ℚ) / 5 ≠ 9 / 10 := by
  norm_num [exT1, okOr, MCTS, mcts_loop, mcts_iter, descend, Except.map,
    back_propagate_path, bp_update, win_increment, Node.getPath, Node.setPath,
    modifyAt, argmax, argmaxAux, get_policy_vector, expand_if_empty,
    init_all_children, find_child_node_information, exceptMap, get_ucb1_score,
    blend, normalized_policy, addVec, set_policy_fields, Game_Node.init,
    Game.play, Game.legal_moves, exCtx, gR, gX, gG, String.reduceEq]

/-! ### Claim C7: `0 ≤ winCount ≤ visitCount` at all times -/

/-- C7: both counters start at 0 at construction; `back_propagate` — the
only mutator of the counters — adds a win only in a step that also adds a
visit, so it preserves `winCount ≤ visitCount` on every chain node; and a
whole `MCTS` run preserves the invariant on every node of the tree. -/
theorem stats_invariant_spec [DecidableEq Move] [Inhabited BB] (ctx : Ctx Move BB)
    (g : Game Move) (mv : Option Move) :
    ((Game_Node.init ctx g mv).wins = 0 ∧
      (Game_Node.init ctx g mv).number_of_visits = 0) ∧
    (∀ (chain : List (Node Move BB)) (r : ℚ) (s : String),
      (∀ c ∈ chain, c.wins ≤ c.number_of_visits) →
      ∀ c' ∈ back_propagate chain r s, c'.wins ≤ c'.number_of_visits) ∧
    (∀ (fuel : ℕ) (t r : Node Move BB) (noises : List (List ℚ)),
      WfStats t → MCTS ctx fuel t noises = .ok r → WfStats r) := by
  refine ⟨⟨rfl, rfl⟩, ?_, ?_⟩
  · intro chain r s h c' hc'
    rcases List.mem_map.mp (by simpa [back_propagate] using hc') with ⟨c, hc, rfl⟩
    rw [bp_update_wins, bp_update_number_of_visits]
    exact Nat.add_le_add (h c hc) win_increment_le_one
  · intro fuel t r noises hwf hok
    exact wf_MCTS hok hwf

theorem stats_invariant_spec_witness :
    (∀ c' ∈ back_propagate [exNodeW] (9 / 10 : ℚ) "w",
      c'.wins ≤ c'.number_of_visits) ∧
    WfStats exT1 :=
  ⟨(stats_invariant_spec exCtx gR none).2.1 [exNodeW] (9 / 10) "w" (by decide),
   (stats_invariant_spec exCtx gR none).2.2 3 (Game_Node.init exCtx gR none)
     exT1 [[0]] wf_init
     (by norm_num [exT1, okOr, MCTS, mcts_loop, mcts_iter, descend,
       back_propagate_path, bp_update, win_increment, Node.getPath, Node.setPath,
       modifyAt, argmax, argmaxAux, get_policy_vector, expand_if_empty,
       init_all_children, find_child_node_information, exceptMap, get_ucb1_score,
       blend, normalized_policy, addVec, set_policy_fields, Game_Node.init,
       Game.play, Game.legal_moves, exCtx, gR, gX, gG])⟩

/-! ### Claim C9: terminal nodes under the search -/

/-- C9 (amended): a terminal node (a node whose state has no legal moves)
never gains children — expansion adds nothing and `get_policy_vector`
leaves `child_nodes` empty — and `MCTS` on a terminal root returns it
immediately with no search; however (contrary to the original claim's
"policyVector is never populated") `get_policy_vector` on a terminal node
with empty children succeeds and populates its `policy_vector` with
`MAX_MOVES = 218` zeros, and the driver does reach this call when descent
re-visits a terminal node that has no vector yet. -/
theorem terminal_expansion_spec [DecidableEq Move] [Inhabited BB] (ctx : Ctx Move BB)
    (n : Node Move BB) (fuel : ℕ) (noises : List (List ℚ))
    (hterm : n.game.legal_moves = []) (hch : n.child_nodes = []) :
    (init_all_children ctx n).child_nodes = n.child_nodes ∧
    (n.terminal_game_state = true → MCTS ctx fuel n noises = .ok n) ∧
    ∃ n', get_policy_vector ctx n = .ok n' ∧ n'.child_nodes = [] ∧
      n'.policy_vector_legal_moves = some [] ∧
      n'.policy_vector = some (List.replicate 218 0) := by
  have hmch : (expand_if_empty ctx n).child_nodes = [] := by
    rw [expand_if_empty_child_nodes_of_empty hch, hterm]
    simp
  have hgame : (expand_if_empty ctx n).game = n.game := expand_if_empty_game
  have hfind : find_child_node_information ctx (expand_if_empty ctx n) = .ok ([], []) := by
    unfold find_child_node_information
    rw [hmch]
    simp [exceptMap]
  have hblend : blend ctx (expand_if_empty ctx n) ([], []) = [] := by
    simp [blend, addVec]
  refine ⟨by simp [hterm], ?_, ?_⟩
  · intro h
    unfold MCTS
    rw [if_pos h]
  · have hgpv : get_policy_vector ctx n =
        .ok (set_policy_fields (expand_if_empty ctx n) [] (List.replicate 218 0)) := by
      simp only [get_policy_vector]
      rw [hfind]
      dsimp only
      rw [if_pos (by rw [hgame, hterm]; simp)]
      rw [hblend, hgame, hterm]
      simp
    exact ⟨_, hgpv, by simp [hmch], by simp, by simp⟩

theorem terminal_expansion_spec_witness :
    (init_all_children exCtx (Game_Node.init exCtx gT9 none)).child_nodes =
      (Game_Node.init exCtx gT9 none).child_nodes ∧
    ((Game_Node.init exCtx gT9 none).terminal_game_state = true →
      MCTS exCtx 3 (Game_Node.init exCtx gT9 none) [] =
        .ok (Game_Node.init exCtx gT9 none)) ∧
    ∃ n', get_policy_vector exCtx (Game_Node.init exCtx gT9 none) = .ok n' ∧
      n'.child_nodes = [] ∧ n'.policy_vector_legal_moves = some [] ∧
      n'.policy_vector = some (List.replicate 218 0) :=
  terminal_expansion_spec exCtx (Game_Node.init exCtx gT9 none) 3 [] rfl rfl

/-- C9, counterexample to the claim as stated: a two-iteration `MCTS` run
on a root whose single move leads to a terminal state ends with that
terminal node's `policy_vector` populated (with 218 zeros) — the claim's
"its policyVector is never populated" fails — while its children do stay
empty. -/
theorem terminal_policy_vector_cex :
    (MCTS exCtx 3 (Game_Node.init exCtx gR9 none) [[0], [0]]).map
      (fun r => ((r.getPath [0]).terminal_game_state,
        (r.getPath [0]).child_nodes.length,
        (r.getPath [0]).policy_vector)) =
      .ok (true, 0, some (List.replicate 218 0)) := by
  norm_num [MCTS, mcts_loop, mcts_iter, descend, Except.map,
    back_propagate_path, bp_update, win_increment, Node.getPath, Node.setPath,
    modifyAt, argmax, argmaxAux, get_policy_vector, expand_if_empty,
    init_all_children, find_child_node_information, exceptMap, get_ucb1_score,
    blend, normalized_policy, addVec, set_policy_fields, Game_Node.init,
    Game.play, Game.legal_moves, exCtx, gR9, gT9, String.reduceEq]

end MctsSpec
